import Mathlib

/-!
Verification of the orchestration engine of an LLM-driven web-CTF solver.

The development shallowly embeds the Python source:
* `main.py` — message-sequence validation (`validate_message_sequence`),
  progressive token-budget trimming inside `agent_node`, the rate-limited
  LLM invocation wrapper (`invoke_llm_with_rate_limit_handling`,
  `extract_retry_delay`), and the agent-loop continuation decision
  (`should_continue`);
* `src/graph/workflow.py` — the stage machine and its continuation
  predicates;
* `src/agents/fuzzer.py` — task execution, flag extraction, adaptive
  queue expansion;
* `src/models/state.py` — the shared workflow state;
* `vibe/src/agents/threat_model.py` — fuzzing-queue population.

Strings are handled as `List Char`; Python floats are idealised as `ℚ`
(every concrete numeral appearing in the claims is exactly representable
as a binary float, so the idealisation is faithful on them).
-/

/-- Message roles of the LangChain history: `HumanMessage`, `SystemMessage`,
`AIMessage` (with a flag recording whether `tool_calls` is non-empty) and
`ToolMessage`.  Content is carried as text. -/
inductive Msg where
  | human (content : String)
  | sys (content : String)
  | ai (toolCalls : Bool) (content : String)
  | tool (content : String)
deriving DecidableEq, Repr

/-- Python `isinstance(msg, AIMessage) and hasattr(msg, 'tool_calls') and msg.tool_calls`. -/
def Msg.hasToolCalls : Msg → Bool
  | .ai tc _ => tc
  | _ => false

/-- Python `isinstance(msg, HumanMessage)`. -/
def Msg.isHuman : Msg → Bool
  | .human _ => true
  | _ => false

/-- Python `isinstance(msg, ToolMessage)`. -/
def Msg.isTool : Msg → Bool
  | .tool _ => true
  | _ => false

/-- The content field of a message. -/
def Msg.content : Msg → String
  | .human c => c
  | .sys c => c
  | .ai _ c => c
  | .tool c => c

/-- Check performed by the body of the `for` loop of
`validate_message_sequence` at one message, given the previous message
(`none` when at position 0) and the next message (`none` when at the end). -/
def msgOk (prev : Option Msg) (m : Msg) (next : Option Msg) : Bool :=
  (if m.hasToolCalls then
    match prev with
    | none => false
    | some p =>
      (p.isHuman || p.isTool) &&
        (match next with
         | some n => n.isTool
         | none => false)
   else true) &&
  (if m.isTool then
    match prev with
    | none => false
    | some p => p.isTool || p.hasToolCalls
   else true)

/-- Loop of `validate_message_sequence`, threading the previous message. -/
def validateSeq : Option Msg → List Msg → Bool
  | _, [] => true
  | prev, m :: rest => msgOk prev m rest.head? && validateSeq (some m) rest

/-- Embedding of `validate_message_sequence` (main.py): `true` iff the
function returns `(True, "Valid")`. -/
def validateMessageSequence (msgs : List Msg) : Bool :=
  validateSeq none msgs

/-- Evaluate a boolean message predicate on an optional message,
defaulting to `false` when absent. -/
def optCheck (f : Msg → Bool) : Option Msg → Bool
  | some m => f m
  | none => false

/-- Invalidity condition at position `i` exactly as claim C1 words it:
an assistant message carrying tool-calls sits at position 0 or is not
immediately followed by a tool-result message, or a tool-result message
sits at position 0 or is not preceded by an assistant tool-calls message
or another tool-result message.  (No condition on the predecessor of an
assistant tool-calls message.) -/
def claimBadAt (l : List Msg) (i : Nat) : Prop :=
  (optCheck Msg.hasToolCalls (l.get? i) = true ∧
    (i = 0 ∨ ¬ optCheck Msg.isTool (l.get? (i + 1)) = true)) ∨
  (optCheck Msg.isTool (l.get? i) = true ∧
    (i = 0 ∨ ¬ optCheck (fun p => p.hasToolCalls || p.isTool) (l.get? (i - 1)) = true))

instance (l : List Msg) (i : Nat) : Decidable (claimBadAt l i) := by
  unfold claimBadAt; infer_instance

/-- Predecessor of position `i`, where the (virtual) predecessor of
position 0 is `prev`. -/
def predOf (prev : Option Msg) (l : List Msg) (i : Nat) : Option Msg :=
  match i with
  | 0 => prev
  | j + 1 => l.get? j

/-- Invalidity condition at position `i` relative to a virtual
predecessor `prev` of position 0, amended with the predecessor
requirement for assistant tool-calls messages that the code enforces. -/
def amendedBadFrom (prev : Option Msg) (l : List Msg) (i : Nat) : Prop :=
  (optCheck Msg.hasToolCalls (l.get? i) = true ∧
    (¬ optCheck (fun p => p.isHuman || p.isTool) (predOf prev l i) = true ∨
     ¬ optCheck Msg.isTool (l.get? (i + 1)) = true)) ∨
  (optCheck Msg.isTool (l.get? i) = true ∧
    ¬ optCheck (fun p => p.hasToolCalls || p.isTool) (predOf prev l i) = true)

/-- Invalidity condition at position `i` as the amended claim words it:
the claim's condition plus "an assistant tool-calls message must be
immediately preceded by a user message or a tool-result message". -/
def amendedBadAt (l : List Msg) (i : Nat) : Prop :=
  (optCheck Msg.hasToolCalls (l.get? i) = true ∧
    (i = 0 ∨ ¬ optCheck (fun p => p.isHuman || p.isTool) (l.get? (i - 1)) = true ∨
     ¬ optCheck Msg.isTool (l.get? (i + 1)) = true)) ∨
  (optCheck Msg.isTool (l.get? i) = true ∧
    (i = 0 ∨ ¬ optCheck (fun p => p.hasToolCalls || p.isTool) (l.get? (i - 1)) = true))

instance (l : List Msg) (i : Nat) : Decidable (amendedBadAt l i) := by
  unfold amendedBadAt; infer_instance

lemma amendedBadAt_iff_from (l : List Msg) (i : Nat) :
    amendedBadAt l i ↔ amendedBadFrom none l i := by
  cases i with
  | zero => simp [amendedBadAt, amendedBadFrom, predOf, optCheck]
  | succ j => simp [amendedBadAt, amendedBadFrom, predOf]

lemma amendedBadFrom_succ (prev : Option Msg) (m : Msg) (rest : List Msg) (i : Nat) :
    amendedBadFrom prev (m :: rest) (i + 1) ↔ amendedBadFrom (some m) rest i := by
  cases i with
  | zero => simp [amendedBadFrom, predOf, List.get?]
  | succ j => simp [amendedBadFrom, predOf, List.get?]

lemma msgOk_iff_not_bad (prev : Option Msg) (m : Msg) (rest : List Msg) :
    msgOk prev m rest.head? = true ↔ ¬ amendedBadFrom prev (m :: rest) 0 := by
  have hget : (m :: rest).get? 0 = some m := rfl
  have hnext : (m :: rest).get? 1 = rest.head? := by
    cases rest <;> rfl
  constructor
  · intro h hb
    rcases hb with ⟨htc, hbad⟩ | ⟨htool, hbad⟩
    · rw [hget] at htc
      simp only [optCheck] at htc
      simp only [msgOk, htc, if_pos, Bool.and_eq_true] at h
      obtain ⟨h1, _⟩ := h
      cases hp : prev with
      | none => rw [hp] at h1; simp at h1
      | some p =>
        rw [hp] at h1
        simp only [Bool.and_eq_true] at h1
        obtain ⟨hpt, hnt⟩ := h1
        rcases hbad with hbp | hbn
        · exact hbp (by simpa [predOf, hp, optCheck] using hpt)
        · apply hbn
          rw [hnext] at hbn ⊢
          cases hh : rest.head? with
          | none => rw [hh] at hnt; simp at hnt
          | some n => rw [hh] at hnt; simpa [optCheck, hh] using hnt
    · rw [hget] at htool
      simp only [optCheck] at htool
      simp only [msgOk, htool, Bool.and_eq_true] at h
      obtain ⟨_, h2⟩ := h
      simp only [if_pos] at h2
      cases hp : prev with
      | none => rw [hp] at h2; simp at h2
      | some p =>
        rw [hp] at h2
        exact hbad (by simpa [predOf, hp, optCheck, Bool.or_comm] using h2)
  · intro h
    simp only [amendedBadFrom, hget, hnext, optCheck, not_or, not_and] at h
    obtain ⟨h1, h2⟩ := h
    simp only [msgOk, Bool.and_eq_true]
    refine ⟨?_, ?_⟩
    · by_cases htc : m.hasToolCalls = true
      · simp only [htc, if_pos]
        have := h1 htc
        push_neg at this
        obtain ⟨ha, hb⟩ := this
        cases hp : prev with
        | none => rw [hp] at ha; simp [predOf, optCheck] at ha
        | some p =>
          rw [hp] at ha
          simp only [predOf, optCheck, not_not] at ha
          simp only [Bool.and_eq_true]
          refine ⟨ha, ?_⟩
          cases hh : rest.head? with
          | none => rw [hh] at hb; simp [optCheck] at hb
          | some n =>
            rw [hh] at hb
            simpa [optCheck, not_not] using hb
      · simp [htc]
    · by_cases htool : m.isTool = true
      · simp only [htool, if_pos]
        have := h2 htool
        simp only [not_not] at this
        cases hp : prev with
        | none => rw [hp] at this; simp [predOf, optCheck] at this
        | some p =>
          rw [hp] at this
          simpa [predOf, optCheck, Bool.or_comm] using this
      · simp [htool]

lemma validateSeq_true_iff (l : List Msg) :
    ∀ prev : Option Msg,
      validateSeq prev l = true ↔ ∀ i, i < l.length → ¬ amendedBadFrom prev l i := by
  induction l with
  | nil =>
    intro prev
    simp [validateSeq]
  | cons m rest ih =>
    intro prev
    simp only [validateSeq, Bool.and_eq_true]
    constructor
    · rintro ⟨h0, hrest⟩ i hi
      cases i with
      | zero => exact (msgOk_iff_not_bad prev m rest).mp h0
      | succ j =>
        rw [amendedBadFrom_succ]
        exact (ih (some m)).mp hrest j (by simpa using hi)
    · intro h
      refine ⟨(msgOk_iff_not_bad prev m rest).mpr (h 0 (by simp)), ?_⟩
      refine (ih (some m)).mpr (fun j hj => ?_)
      rw [← amendedBadFrom_succ prev m rest j]
      exact h (j + 1) (by simpa using hj)

/-- A history showing the claim's iff false: `[Human, AI (no tool-calls),
AI (tool-calls), Tool]`.  The code rejects it (the assistant tool-calls
message at position 2 is preceded by a plain assistant message), but the
claim's condition does not flag any position. -/
def cexHistory : List Msg :=
  [Msg.human "start", Msg.ai false "thinking", Msg.ai true "calling", Msg.tool "result"]

/-- C1 counterexample: `validate` rejects `cexHistory`, yet no position of
`cexHistory` satisfies the claim's invalidity condition, so the claimed
iff fails. -/
theorem validate_claim_iff_counterexample :
    validateMessageSequence cexHistory = false ∧
      ¬ ∃ i, i < cexHistory.length ∧ claimBadAt cexHistory i := by
  constructor
  · decide
  · rintro ⟨i, hi, hbad⟩
    have hi4 : i < 4 := by simpa [cexHistory] using hi
    interval_cases i <;> revert hbad <;> decide

/-- C1 (amended): `validate_message_sequence` returns false iff some
assistant message carrying tool-calls sits at position 0, is not
immediately preceded by a user or tool-result message, or is not
immediately followed by a tool-result message, or some tool-result
message sits at position 0 or is not preceded by an assistant tool-calls
message or another tool-result message. -/
theorem validate_false_iff_amended (l : List Msg) :
    validateMessageSequence l = false ↔ ∃ i, i < l.length ∧ amendedBadAt l i := by
  have h := validateSeq_true_iff l none
  constructor
  · intro hf
    by_contra hnone
    push_neg at hnone
    have : validateSeq none l = true := by
      refine h.mpr (fun i hi => ?_)
      rw [← amendedBadAt_iff_from]
      exact hnone i hi
    rw [validateMessageSequence] at hf
    rw [this] at hf
    exact Bool.true_eq_false.mp hf
  · rintro ⟨i, hi, hbad⟩
    rw [amendedBadAt_iff_from] at hbad
    by_contra hne
    have ht : validateSeq none l = true := by
      cases hv : validateSeq none l with
      | false => exact absurd hv hne
      | true => rfl
    exact h.mp ht i hi hbad

/-- Token budgets tried by `agent_node` (main.py): `TOKEN_LIMIT = 200000`
followed by `int(TOKEN_LIMIT * p)` for `p = 0.9, 0.8, …, 0.3`.  Each
double-precision product `200000 * p` rounds to the exact integer
percentage, so the ladder is exactly 100% down to 30% in steps of 10%. -/
def tokenLadder : List Nat :=
  [200000, 180000, 160000, 140000, 120000, 100000, 80000, 60000]

/-- Result of the trimming phase of `agent_node`: either a history to
send, or the fatal `ValueError` raised when even the untrimmed history is
invalid. -/
inductive TrimOutcome where
  | ok (msgs : List Msg)
  | fatal (reason : String)
deriving DecidableEq, Repr

/-- Loop of `agent_node` over the budget ladder.  `T b msgs` is the
outcome of LangChain's `trim_messages` at budget `b` (`none` models the
`except Exception: continue` branch).  The first candidate passing
`validate_message_sequence` is kept. -/
def tryBudgets (T : Nat → List Msg → Option (List Msg)) (msgs : List Msg) :
    List Nat → Option (List Msg)
  | [] => none
  | b :: rest =>
    match T b msgs with
    | some cand =>
      if validateMessageSequence cand then some cand else tryBudgets T msgs rest
    | none => tryBudgets T msgs rest

/-- Trimming phase of `agent_node` (main.py): try the ladder; if no budget
produced a valid candidate, fall back to the untrimmed history, which is
re-validated and, when invalid, raises `ValueError`. -/
def agentTrimStep (T : Nat → List Msg → Option (List Msg)) (msgs : List Msg) :
    TrimOutcome :=
  match tryBudgets T msgs tokenLadder with
  | some trimmed => .ok trimmed
  | none =>
    if validateMessageSequence msgs then .ok msgs
    else .fatal "Invalid message sequence for Gemini API"

/-- Result produced by the first budget of the ladder whose trimmed
candidate satisfies `validate_message_sequence` (the claim's wording). -/
def firstValidBudget (T : Nat → List Msg → Option (List Msg)) (msgs : List Msg) :
    Option (List Msg) :=
  tokenLadder.findSome? (fun b =>
    match T b msgs with
    | some cand => if validateMessageSequence cand then some cand else none
    | none => none)

lemma tryBudgets_eq_findSome (T : Nat → List Msg → Option (List Msg))
    (msgs : List Msg) (ladder : List Nat) :
    tryBudgets T msgs ladder =
      ladder.findSome? (fun b =>
        match T b msgs with
        | some cand => if validateMessageSequence cand then some cand else none
        | none => none) := by
  induction ladder with
  | nil => rfl
  | cons b rest ih =>
    simp only [tryBudgets, List.findSome?]
    cases hT : T b msgs with
    | none => simpa using ih
    | some cand =>
      by_cases hv : validateMessageSequence cand = true
      · simp [hv]
      · simp only [Bool.not_eq_true] at hv
        simpa [hv] using ih

lemma tryBudgets_valid (T : Nat → List Msg → Option (List Msg))
    (msgs : List Msg) (ladder : List Nat) (c : List Msg)
    (h : tryBudgets T msgs ladder = some c) :
    validateMessageSequence c = true := by
  induction ladder with
  | nil => exact absurd h (by simp [tryBudgets])
  | cons b rest ih =>
    rw [tryBudgets] at h
    cases hT : T b msgs with
    | none =>
      simp only [hT] at h
      exact ih h
    | some cand =>
      simp only [hT] at h
      by_cases hv : validateMessageSequence cand = true
      · rw [if_pos hv] at h
        cases h
        exact hv
      · rw [if_neg hv] at h
        exact ih h

/-- C2 counterexample: when every budget's trim attempt fails and the
untrimmed history is itself invalid (here `[Tool]`, with a trimmer that
always raises), `agent_node` raises a fatal error instead of returning
the full untrimmed history unchanged as the claim states. -/
theorem agent_trim_claim_counterexample :
    agentTrimStep (fun _ _ => none) [Msg.tool "orphan"] ≠
        TrimOutcome.ok [Msg.tool "orphan"] ∧
      agentTrimStep (fun _ _ => none) [Msg.tool "orphan"] =
        TrimOutcome.fatal "Invalid message sequence for Gemini API" := by
  decide

/-- C2 (amended): `agent_node` tries the descending ladder 100%…30% and
returns the candidate of the first budget whose trimmed result satisfies
`validate`; if no budget yields a valid candidate, the full untrimmed
history is returned unchanged when it validates and a fatal error is
raised otherwise; a returned history is never a trimmed one failing
`validate`. -/
theorem agent_trim_amended (T : Nat → List Msg → Option (List Msg)) (msgs : List Msg) :
    (agentTrimStep T msgs =
      match firstValidBudget T msgs with
      | some c => TrimOutcome.ok c
      | none =>
        if validateMessageSequence msgs then TrimOutcome.ok msgs
        else TrimOutcome.fatal "Invalid message sequence for Gemini API") ∧
    (∀ r, agentTrimStep T msgs = TrimOutcome.ok r →
      validateMessageSequence r = true ∨ r = msgs) := by
  constructor
  · rw [agentTrimStep, firstValidBudget, ← tryBudgets_eq_findSome]
  · intro r hr
    rw [agentTrimStep] at hr
    cases ht : tryBudgets T msgs tokenLadder with
    | some c =>
      simp only [ht] at hr
      have hcr : c = r := by injection hr
      subst hcr
      exact Or.inl (tryBudgets_valid T msgs tokenLadder c ht)
    | none =>
      simp only [ht] at hr
      by_cases hv : validateMessageSequence msgs = true
      · rw [if_pos hv] at hr
        have : msgs = r := by injection hr
        subst this
        exact Or.inr rfl
      · rw [if_neg hv] at hr
        exact absurd hr (by simp)

/-- Witness for `agent_trim_amended` at a trimmer that returns its input
and a one-message valid history. -/
theorem agent_trim_amended_witness :
    validateMessageSequence [Msg.human "hi"] = true ∨
      [Msg.human "hi"] = [Msg.human "hi"] :=
  (agent_trim_amended (fun _ m => some m) [Msg.human "hi"]).2 [Msg.human "hi"] (by decide)

/-- Modelled from the spec: LangChain's `trim_messages` (absent from
src/) with `strategy="last"`, `include_system=True`,
`allow_partial=False` keeps "the most recent messages plus any mandatory
leading system message".  `dropUntilFit` drops oldest non-system messages
until the kept history fits the budget. -/
def dropUntilFit (count : List Msg → Nat) (budget : Nat) (sysPart : List Msg) :
    List Msg → List Msg
  | [] => []
  | m :: rest =>
    if count (sysPart ++ m :: rest) ≤ budget then m :: rest
    else dropUntilFit count budget sysPart rest

/-- Modelled from the spec: LangChain's `trim_messages` as used by
`agent_node` — the leading system message is always kept, and the longest
suffix of the remaining messages that fits the token budget is retained. -/
def trimMessagesModel (count : List Msg → Nat) (budget : Nat) (msgs : List Msg) :
    List Msg :=
  match msgs with
  | Msg.sys c :: rest => Msg.sys c :: dropUntilFit count budget [Msg.sys c] rest
  | other => dropUntilFit count budget [] other

lemma trimMessagesModel_underBudget (count : List Msg → Nat) (budget : Nat)
    (msgs : List Msg) (h : count msgs ≤ budget) :
    trimMessagesModel count budget msgs = msgs := by
  cases msgs with
  | nil => rfl
  | cons m rest =>
    cases m with
    | sys c =>
      cases rest with
      | nil => simp [trimMessagesModel, dropUntilFit]
      | cons m2 r2 =>
        simp only [trimMessagesModel, dropUntilFit]
        rw [if_pos (by simpa using h)]
    | human c => simp only [trimMessagesModel, dropUntilFit]; rw [if_pos (by simpa using h)]
    | ai tc c => simp only [trimMessagesModel, dropUntilFit]; rw [if_pos (by simpa using h)]
    | tool c => simp only [trimMessagesModel, dropUntilFit]; rw [if_pos (by simpa using h)]

/-- C9: trimming an already-valid history whose token count is within the
200000-token ceiling returns it unchanged — the first ladder budget keeps
the whole history and it passes validation immediately. -/
theorem trim_valid_underBudget_id (count : List Msg → Nat) (msgs : List Msg)
    (hv : validateMessageSequence msgs = true) (hc : count msgs ≤ 200000) :
    agentTrimStep (fun b m => some (trimMessagesModel count b m)) msgs =
      TrimOutcome.ok msgs := by
  have h200 : trimMessagesModel count 200000 msgs = msgs :=
    trimMessagesModel_underBudget count 200000 msgs hc
  simp only [agentTrimStep, tokenLadder, tryBudgets, h200, hv, if_pos]

/-- Witness for `trim_valid_underBudget_id` at a zero token counter and a
one-message history. -/
theorem trim_valid_underBudget_id_witness :
    agentTrimStep (fun b m => some (trimMessagesModel (fun _ => 0) b m))
        [Msg.human "x"] = TrimOutcome.ok [Msg.human "x"] :=
  trim_valid_underBudget_id (fun _ => 0) [Msg.human "x"] (by decide) (by decide)

/-- Whitespace characters of the regex class backslash-s (ASCII range, as
exercised by the claims). -/
def isPySpace (c : Char) : Bool :=
  c = ' ' || c = '\t' || c = '\n' || c = '\x0d' || c = '\x0c' || c = '\x0b'

/-- Character class of the first retry pattern's capture group: digits and
dots. -/
def isDigitOrDot (c : Char) : Bool :=
  c.isDigit || c = '.'

/-- Drop a literal prefix, returning the remainder on success. -/
def dropLit : List Char → List Char → Option (List Char)
  | [], s => some s
  | _ :: _, [] => none
  | c :: cs, d :: ds => if c = d then dropLit cs ds else none

/-- Match the regex `Please retry in ([\d.]+)s` at the head of the input,
returning the capture group.  The group class excludes `s`, so the
greedy maximal run followed by a literal `s` check is exactly the
backtracking regex semantics at this position. -/
def matchRetryIn (s : List Char) : Option (List Char) :=
  match dropLit "Please retry in ".data s with
  | none => none
  | some rest =>
    let run := rest.takeWhile isDigitOrDot
    if run.isEmpty then none
    else
      match rest.drop run.length with
      | 's' :: _ => some run
      | _ => none

/-- Match the regex `retry_delay\s*{\s*seconds:\s*(\d+)` at the head of
the input, returning the digit group.  Every `\s*` is followed by a
non-space character, so maximal munch is exact. -/
def matchRetryDelayBlock (s : List Char) : Option (List Char) :=
  match dropLit "retry_delay".data s with
  | none => none
  | some s1 =>
    match s1.dropWhile isPySpace with
    | '\x7b' :: s3 =>
      match dropLit "seconds:".data (s3.dropWhile isPySpace) with
      | none => none
      | some s5 =>
        let digits := (s5.dropWhile isPySpace).takeWhile Char.isDigit
        if digits.isEmpty then none else some digits
    | _ => none

/-- Leftmost-match search: try the position matcher at every start
position, as `re.search` does. -/
def searchPos (f : List Char → Option (List Char)) : List Char → Option (List Char)
  | [] => f []
  | c :: rest =>
    match f (c :: rest) with
    | some g => some g
    | none => searchPos f rest

/-- Numeric value of a digit string. -/
def digitsToNat (ds : List Char) : Nat :=
  ds.foldl (fun n c => 10 * n + (c.toNat - '0'.toNat)) 0

/-- Integer part, fraction digits and fraction length of a digits-and-dots
string, when it is a well-formed decimal (at most one dot, at least one
digit); `none` models the `ValueError` a malformed group would raise. -/
def pyFloatParts (g : List Char) : Option (Nat × Nat × Nat) :=
  let intPart := g.takeWhile (fun c => c ≠ '.')
  match g.drop intPart.length with
  | [] => if g.isEmpty then none else some (digitsToNat g, 0, 0)
  | '.' :: frac =>
    if frac.any (fun c => c = '.') then none
    else if intPart.isEmpty && frac.isEmpty then none
    else some (digitsToNat intPart, digitsToNat frac, frac.length)
  | _ => none

/-- Python `float(...)` applied to a string of digits and dots.  Values
are idealised as exact rationals. -/
def pyFloatOfGroup (g : List Char) : Option ℚ :=
  (pyFloatParts g).map (fun p => (p.1 : ℚ) + (p.2.1 : ℚ) / (10 ^ p.2.2 : ℚ))

/-- Embedding of `extract_retry_delay` (main.py): try the two patterns in
order, return the parsed delay, defaulting to 60 seconds when neither
matches.  `none` models the uncaught `ValueError` that `float` would
raise on a group like `1.2.3`. -/
def extractRetryDelay (msg : List Char) : Option ℚ :=
  match searchPos matchRetryIn msg with
  | some g => pyFloatOfGroup g
  | none =>
    match searchPos matchRetryDelayBlock msg with
    | some digits => some (digitsToNat digits : ℚ)
    | none => some 60

/-- Outcome of a single `llm_instance.invoke(messages)` call. -/
inductive CallOutcome where
  | success (resp : String)
  | resourceExhausted (msg : String)
  | otherError (msg : String)
deriving DecidableEq, Repr

/-- How `invoke_llm_with_rate_limit_handling` terminates. -/
inductive InvokeResult where
  | ok (resp : String)
  | raisedRateLimit (msg : String)
  | raisedOther (msg : String)
  | raisedParse
  | raisedExhaustedLoop
deriving DecidableEq, Repr

/-- Result of the wrapper together with the backoff sleeps it performed,
in order. -/
structure InvokeTrace where
  result : InvokeResult
  sleeps : List ℚ
deriving DecidableEq, Repr

/-- Loop body of `invoke_llm_with_rate_limit_handling` (main.py).  `f i`
is the outcome of the i-th model call; `rem` is `max_attempts - attempt`.
On a rate-limit error the attempt counter is bumped, the wrapper
re-raises when it reaches `max_attempts`, and otherwise sleeps the parsed
delay and retries.  Any other error is re-raised at once. -/
def invokeLoop (f : Nat → CallOutcome) (i : Nat) : Nat → InvokeTrace
  | 0 => ⟨.raisedExhaustedLoop, []⟩
  | rem + 1 =>
    match f i with
    | .success r => ⟨.ok r, []⟩
    | .resourceExhausted m =>
      if rem = 0 then ⟨.raisedRateLimit m, []⟩
      else
        match extractRetryDelay m.data with
        | some d =>
          let t := invokeLoop f (i + 1) rem
          ⟨t.result, d :: t.sleeps⟩
        | none => ⟨.raisedParse, []⟩
    | .otherError m => ⟨.raisedOther m, []⟩

/-- Embedding of `invoke_llm_with_rate_limit_handling` with its default
`max_attempts=5`. -/
def invokeLLMWithRateLimitHandling (f : Nat → CallOutcome) : InvokeTrace :=
  invokeLoop f 0 5

lemma invokeLoop_rl_prefix (f : Nat → CallOutcome) (msg : Nat → String) (d : Nat → ℚ) :
    ∀ (k i rem : Nat), k < rem →
      (∀ j, j < k → f (i + j) = CallOutcome.resourceExhausted (msg (i + j))) →
      (∀ j, j < k → extractRetryDelay (msg (i + j)).data = some (d (i + j))) →
      invokeLoop f i rem =
        ⟨(invokeLoop f (i + k) (rem - k)).result,
          (List.range k).map (fun j => d (i + j)) ++ (invokeLoop f (i + k) (rem - k)).sleeps⟩ := by
  intro k
  induction k with
  | zero =>
    intro i rem _ _ _
    simp
  | succ k ih =>
    intro i rem hk hf hd
    obtain ⟨rem1, rfl⟩ : ∃ t, rem = t + 1 := ⟨rem - 1, by omega⟩
    have hf0 : f i = CallOutcome.resourceExhausted (msg i) := by
      simpa using hf 0 (by omega)
    have hd0 : extractRetryDelay (msg i).data = some (d i) := by
      simpa using hd 0 (by omega)
    have hrem1 : ¬ rem1 = 0 := by omega
    rw [invokeLoop]
    simp only [hf0]
    rw [if_neg hrem1]
    simp only [hd0]
    have hrec := ih (i + 1) rem1 (by omega)
      (fun j hj => by
        have := hf (j + 1) (by omega)
        simpa [Nat.add_assoc, Nat.add_comm 1 j] using this)
      (fun j hj => by
        have := hd (j + 1) (by omega)
        simpa [Nat.add_assoc, Nat.add_comm 1 j] using this)
    rw [hrec]
    have harith1 : i + 1 + k = i + (k + 1) := by omega
    have harith2 : rem1 - k = rem1 + 1 - (k + 1) := by omega
    simp only [harith1, harith2, List.range_succ_eq_map, List.map_cons, List.map_map]
    refine congrArg₂ _ rfl ?_
    simp only [List.cons_append]
    refine congrArg₂ _ rfl ?_
    refine congrArg₂ _ ?_ rfl
    refine congrArg₂ _ ?_ rfl
    funext j
    simp [Function.comp, Nat.add_assoc, Nat.add_comm 1 j]

lemma invokeLoop_success_step (f : Nat → CallOutcome) (k t : Nat) (r : String)
    (hr : f k = CallOutcome.success r) :
    invokeLoop f k (t + 1) = ⟨InvokeResult.ok r, []⟩ := by
  rw [invokeLoop]
  simp only [hr]

lemma invokeLoop_other_step (f : Nat → CallOutcome) (k t : Nat) (m : String)
    (hm : f k = CallOutcome.otherError m) :
    invokeLoop f k (t + 1) = ⟨InvokeResult.raisedOther m, []⟩ := by
  rw [invokeLoop]
  simp only [hm]

lemma invokeLoop_exhaust_step (f : Nat → CallOutcome) (k : Nat) (m : String)
    (hm : f k = CallOutcome.resourceExhausted m) :
    invokeLoop f k 1 = ⟨InvokeResult.raisedRateLimit m, []⟩ := by
  rw [invokeLoop]
  simp only [hm]
  simp

/-- C4: with `max_attempts = 5` the wrapper retries only on a
resource-exhaustion error, sleeping the delay parsed from the error text,
re-raises after five such failures, and re-raises any other error
immediately on its first occurrence with no further call; the delay
parser yields 12.5 for "Please retry in 12.5s", 30 for
"retry_delay … seconds: 30 …", and the 60-second default on unparsable
text. -/
theorem invoke_retry_spec :
    (∀ (f : Nat → CallOutcome) (msg : Nat → String) (d : Nat → ℚ) (k : Nat),
      k < 5 →
      (∀ i, i < k → f i = CallOutcome.resourceExhausted (msg i)) →
      (∀ i, i < k → extractRetryDelay (msg i).data = some (d i)) →
      (∀ r, f k = CallOutcome.success r →
        invokeLLMWithRateLimitHandling f = ⟨InvokeResult.ok r, (List.range k).map d⟩) ∧
      (∀ m, f k = CallOutcome.otherError m →
        invokeLLMWithRateLimitHandling f =
          ⟨InvokeResult.raisedOther m, (List.range k).map d⟩)) ∧
    (∀ (f : Nat → CallOutcome) (msg : Nat → String) (d : Nat → ℚ),
      (∀ i, i < 5 → f i = CallOutcome.resourceExhausted (msg i)) →
      (∀ i, i < 4 → extractRetryDelay (msg i).data = some (d i)) →
      invokeLLMWithRateLimitHandling f =
        ⟨InvokeResult.raisedRateLimit (msg 4), (List.range 4).map d⟩) ∧
    extractRetryDelay "Please retry in 12.5s".data = some (25 / 2 : ℚ) ∧
    extractRetryDelay "retry_delay \x7b seconds: 30 \x7d".data = some (30 : ℚ) ∧
    extractRetryDelay "quota exceeded with no delay info".data = some (60 : ℚ) := by
  refine ⟨?_, ?_, ?_, ?_, ?_⟩
  · intro f msg d k hk hf hd
    have base := invokeLoop_rl_prefix f msg d k 0 5 hk
      (fun j hj => by simpa using hf j hj)
      (fun j hj => by simpa using hd j hj)
    simp only [Nat.zero_add] at base
    obtain ⟨t, ht⟩ : ∃ t, 5 - k = t + 1 := ⟨5 - k - 1, by omega⟩
    rw [ht] at base
    constructor
    · intro r hr
      rw [invokeLLMWithRateLimitHandling, base,
        invokeLoop_success_step f k t r hr]
      simp
    · intro m hm
      rw [invokeLLMWithRateLimitHandling, base,
        invokeLoop_other_step f k t m hm]
      simp
  · intro f msg d hf hd
    have base := invokeLoop_rl_prefix f msg d 4 0 5 (by omega)
      (fun j hj => by simpa using hf j (by omega))
      (fun j hj => by simpa using hd j hj)
    simp only [Nat.zero_add] at base
    have hstep : invokeLoop f 4 (5 - 4) = ⟨InvokeResult.raisedRateLimit (msg 4), []⟩ :=
      invokeLoop_exhaust_step f 4 (msg 4) (hf 4 (by omega))
    rw [invokeLLMWithRateLimitHandling, base, hstep]
    simp
  · have h : searchPos matchRetryIn "Please retry in 12.5s".data = some "12.5".data := by
      decide
    have hp : pyFloatParts "12.5".data = some (12, 5, 1) := by decide
    simp only [extractRetryDelay, h, pyFloatOfGroup, hp, Option.map]
    norm_num
  · have h : searchPos matchRetryIn "retry_delay \x7b seconds: 30 \x7d".data = none := by
      decide
    have h2 : searchPos matchRetryDelayBlock "retry_delay \x7b seconds: 30 \x7d".data =
        some "30".data := by decide
    have hd : digitsToNat "30".data = 30 := by decide
    simp only [extractRetryDelay, h, h2, hd]
    norm_num
  · have h : searchPos matchRetryIn "quota exceeded with no delay info".data = none := by
      decide
    have h2 : searchPos matchRetryDelayBlock "quota exceeded with no delay info".data =
        none := by decide
    rw [extractRetryDelay, h, h2]

/-- Witness for `invoke_retry_spec`: five consecutive rate-limit errors
with unparsable text give four default 60-second sleeps and a final
re-raise. -/
theorem invoke_retry_spec_witness :
    invokeLLMWithRateLimitHandling
        (fun _ => CallOutcome.resourceExhausted "quota exceeded with no delay info") =
      ⟨InvokeResult.raisedRateLimit "quota exceeded with no delay info",
        (List.range 4).map (fun _ => (60 : ℚ))⟩ :=
  invoke_retry_spec.2.1
    (fun _ => CallOutcome.resourceExhausted "quota exceeded with no delay info")
    (fun _ => "quota exceeded with no delay info")
    (fun _ => (60 : ℚ))
    (fun _ _ => rfl)
    (fun _ _ =>
      (by decide : extractRetryDelay "quota exceeded with no delay info".data = some (60 : ℚ)))

/-- Character classes occurring in the flag patterns: `[^}]` and
`[A-Za-z0-9_]`. -/
inductive ClassKind where
  | nonRBrace
  | word
deriving DecidableEq, Repr

/-- Membership in a character class. -/
def classChar : ClassKind → Char → Bool
  | .nonRBrace, c => c ≠ '\x7d'
  | .word, c => c.isAlpha || c.isDigit || c = '_'

/-- Token of the regex fragment language used by `_extract_flag`:
a literal character or a one-or-more greedy class repetition. -/
inductive RegexTok where
  | lit (c : Char)
  | plus (k : ClassKind)
deriving DecidableEq, Repr

/-- Backtracking matcher for a token sequence anchored at the head of the
input, returning the matched prefix.  Class repetitions are tried
greedily, longest run first, exactly as Python's backtracking regex
engine does; literals compare case-insensitively, mirroring the
`re.IGNORECASE` flag `_extract_flag` passes.  The fuel argument only
bounds the token list, which shrinks at every recursive call. -/
def matchToksF : Nat → List RegexTok → List Char → Option (List Char)
  | 0, _, _ => none
  | _ + 1, [], _ => some []
  | _ + 1, RegexTok.lit _ :: _, [] => none
  | fuel + 1, RegexTok.lit c :: ts, d :: rest =>
    if c.toLower = d.toLower then (matchToksF fuel ts rest).map (d :: ·) else none
  | fuel + 1, RegexTok.plus k :: ts, s =>
    ((List.range (s.takeWhile (classChar k)).length).reverse.map (· + 1)).findSome?
      (fun j => (matchToksF fuel ts (s.drop j)).map (fun r => s.take j ++ r))

/-- Match a token sequence at the head of the input. -/
def matchToks (ts : List RegexTok) (s : List Char) : Option (List Char) :=
  matchToksF (ts.length + 1) ts s

/-- Leftmost match of a token sequence anywhere in the input: the first
element of Python's `re.findall`. -/
def firstMatchAux (ts : List RegexTok) : List Char → Option (List Char)
  | [] => matchToks ts []
  | c :: rest =>
    match matchToks ts (c :: rest) with
    | some r => some r
    | none => firstMatchAux ts rest

/-- Regex metacharacters whose bare occurrence places a pattern outside
the fragment language modelled here. -/
def isRegexMeta (c : Char) : Bool :=
  c = '\\' || c = '[' || c = ']' || c = '\x7b' || c = '\x7d' || c = '(' || c = ')' ||
    c = '*' || c = '+' || c = '?' || c = '|' || c = '.' || c = '^' || c = '$'

/-- Parse a regex string of the fragment language into tokens: escaped
braces, the classes `[^}]+` and `[A-Za-z0-9_]+`, and literal characters.
`none` marks a pattern outside the fragment (such patterns are beyond
this model; for the concrete patterns of `_extract_flag` the parse is
exact). -/
def compileRegex : List Char → Option (List RegexTok)
  | [] => some []
  | '\\' :: '\x7b' :: rest => (compileRegex rest).map (RegexTok.lit '\x7b' :: ·)
  | '\\' :: '\x7d' :: rest => (compileRegex rest).map (RegexTok.lit '\x7d' :: ·)
  | '[' :: '^' :: '\x7d' :: ']' :: '+' :: rest =>
    (compileRegex rest).map (RegexTok.plus ClassKind.nonRBrace :: ·)
  | '[' :: 'A' :: '-' :: 'Z' :: 'a' :: '-' :: 'z' :: '0' :: '-' :: '9' :: '_' :: ']' :: '+' :: rest =>
    (compileRegex rest).map (RegexTok.plus ClassKind.word :: ·)
  | c :: rest =>
    if isRegexMeta c then none else (compileRegex rest).map (RegexTok.lit c :: ·)

/-- Python `str.replace` for a single-character pattern. -/
def replaceChar (c : Char) (r : List Char) : List Char → List Char
  | [] => []
  | d :: rest => if d = c then r ++ replaceChar c r rest else d :: replaceChar c r rest

/-- Regex string derived from the challenge's flag format in
`_extract_flag`: `flag_format.replace("\x7b", r"\ \x7b").replace(...)`,
escaping literal braces and replacing the `*` wildcard with `[^\x7d]+`. -/
def transformFormat (fmt : List Char) : List Char :=
  replaceChar '*' "[^\x7d]+".data
    (replaceChar '\x7d' ['\\', '\x7d'] (replaceChar '\x7b' ['\\', '\x7b'] fmt))

/-- Pattern strings tried by `_extract_flag`, in order: the derived
pattern, then the generic fallback flag shapes. -/
def flagPatternStrings (flagFormat : List Char) : List (List Char) :=
  [transformFormat flagFormat,
   "CTF\\\x7b[^\x7d]+\\\x7d".data,
   "flag\\\x7b[^\x7d]+\\\x7d".data,
   "FLAG\\\x7b[^\x7d]+\\\x7d".data,
   "[A-Za-z0-9_]+\\\x7b[^\x7d]+\\\x7d".data]

/-- Embedding of `_extract_flag` (fuzzer.py): empty content or empty
format yields no flag; otherwise the patterns are tried in order with
`re.IGNORECASE`, a pattern failing to parse is skipped (the
`except re.error: continue` branch), and the first match wins. -/
def extractFlag (content : List Char) (flagFormat : List Char) : Option (List Char) :=
  if content.isEmpty || flagFormat.isEmpty then none
  else
    (flagPatternStrings flagFormat).findSome? (fun p =>
      match compileRegex p with
      | some ts => firstMatchAux ts content
      | none => none)

/-- Fallback token sequence for the pattern `CTF\ \x7b[^\x7d]+\ \x7d`. -/
def ctfToks : List RegexTok :=
  [RegexTok.lit 'C', RegexTok.lit 'T', RegexTok.lit 'F',
   RegexTok.lit '\x7b', RegexTok.plus ClassKind.nonRBrace, RegexTok.lit '\x7d']

/-- Fallback token sequence for the lowercase `flag` pattern. -/
def flagToks : List RegexTok :=
  [RegexTok.lit 'f', RegexTok.lit 'l', RegexTok.lit 'a', RegexTok.lit 'g',
   RegexTok.lit '\x7b', RegexTok.plus ClassKind.nonRBrace, RegexTok.lit '\x7d']

/-- Fallback token sequence for the uppercase `FLAG` pattern. -/
def flagUpperToks : List RegexTok :=
  [RegexTok.lit 'F', RegexTok.lit 'L', RegexTok.lit 'A', RegexTok.lit 'G',
   RegexTok.lit '\x7b', RegexTok.plus ClassKind.nonRBrace, RegexTok.lit '\x7d']

/-- Fallback token sequence for the generic word-brace pattern. -/
def genericToks : List RegexTok :=
  [RegexTok.plus ClassKind.word, RegexTok.lit '\x7b',
   RegexTok.plus ClassKind.nonRBrace, RegexTok.lit '\x7d']

/-- C6: flag extraction tries the regex derived from the flag-format
pattern first and always falls back to the generic flag-shaped patterns,
the first match overall winning; format `flag\x7b*\x7d` against text
containing `flag\x7babc_123\x7d` returns `flag\x7babc_123\x7d`, and text
with no brace-delimited token yields no match.  The derived pattern is
required to lie in the modelled regex fragment. -/
theorem extract_flag_spec :
    (∀ (content fmt : List Char) (ts : List RegexTok),
      compileRegex (transformFormat fmt) = some ts →
      content ≠ [] → fmt ≠ [] →
      extractFlag content fmt =
        [firstMatchAux ts content,
         firstMatchAux ctfToks content,
         firstMatchAux flagToks content,
         firstMatchAux flagUpperToks content,
         firstMatchAux genericToks content].findSome? id) ∧
    extractFlag "the page shows flag\x7babc_123\x7d now".data "flag\x7b*\x7d".data =
      some "flag\x7babc_123\x7d".data ∧
    extractFlag "no brace delimited token here".data "flag\x7b*\x7d".data = none := by
  refine ⟨?_, ?_, ?_⟩
  · intro content fmt ts hc hcontent hfmt
    have hce : content.isEmpty = false := by cases content <;> simp_all
    have hfe : fmt.isEmpty = false := by cases fmt <;> simp_all
    have h1 : compileRegex "CTF\\\x7b[^\x7d]+\\\x7d".data = some ctfToks := by decide
    have h2 : compileRegex "flag\\\x7b[^\x7d]+\\\x7d".data = some flagToks := by decide
    have h3 : compileRegex "FLAG\\\x7b[^\x7d]+\\\x7d".data = some flagUpperToks := by decide
    have h4 : compileRegex "[A-Za-z0-9_]+\\\x7b[^\x7d]+\\\x7d".data = some genericToks := by
      decide
    rw [extractFlag, if_neg (by simp [hce, hfe])]
    simp only [flagPatternStrings, List.findSome?, hc, h1, h2, h3, h4, id]
  · decide
  · decide

/-- Witness for `extract_flag_spec`: the fallback-chain equation at the
concrete format `flag\x7b*\x7d` and a body carrying a CTF-shaped flag. -/
theorem extract_flag_spec_witness :
    extractFlag "see CTF\x7bw1n\x7d here".data "flag\x7b*\x7d".data =
      [firstMatchAux flagToks "see CTF\x7bw1n\x7d here".data,
       firstMatchAux ctfToks "see CTF\x7bw1n\x7d here".data,
       firstMatchAux flagToks "see CTF\x7bw1n\x7d here".data,
       firstMatchAux flagUpperToks "see CTF\x7bw1n\x7d here".data,
       firstMatchAux genericToks "see CTF\x7bw1n\x7d here".data].findSome? id :=
  extract_flag_spec.1 "see CTF\x7bw1n\x7d here".data "flag\x7b*\x7d".data flagToks
    (by decide) (by decide) (by decide)

/-- Exploit status enum of `models/challenge.py`. -/
inductive ExploitStatus where
  | pending
  | inProgress
  | success
  | failed
  | timeout
deriving DecidableEq, Repr

/-- Exploitation attempt record (`models/challenge.py`), restricted to
the fields the claims read.  `responseStatusCode` is
`response_data["status_code"]`. -/
structure ExploitAttempt where
  attackVector : String
  payload : String
  status : ExploitStatus
  flagFound : Option (List Char)
  responseStatusCode : Nat
deriving DecidableEq, Repr

/-- Python truthiness of `attempt.flag_found`: present and non-empty. -/
def ExploitAttempt.flagTruthy (a : ExploitAttempt) : Bool :=
  match a.flagFound with
  | some f => !f.isEmpty
  | none => false

/-- A fuzzing-queue entry, as built by `_populate_fuzzing_queue`
(threat_model.py).  Parameter maps are modelled as association lists. -/
structure FuzzTask where
  vulnType : String
  location : String
  attackVector : String
  payload : String
  confidence : ℚ
  method : String
  params : List (String × String)
deriving DecidableEq, Repr

/-- Embedding of `_execute_fuzzing_task` (fuzzer.py) on its
non-exception path, given the HTTP response the chosen exploit routine
obtained: the flag is extracted from the response body and the attempt is
marked SUCCESS exactly when a flag was found, FAILED otherwise. -/
def runFuzzingTask (task : FuzzTask) (respContent : List Char) (respCode : Nat)
    (flagFormat : List Char) : ExploitAttempt :=
  let flag := extractFlag respContent flagFormat
  { attackVector := task.attackVector
    payload := task.payload
    status := if flag.isSome then ExploitStatus.success else ExploitStatus.failed
    flagFound := flag
    responseStatusCode := respCode }

/-- The `additional_payloads` list of `_generate_adaptive_fuzzing`. -/
def sqlAdditionalPayloads : List String :=
  ["\x27 UNION SELECT 1,2,3--",
   "\x27 OR 1=1 LIMIT 1--",
   "admin\x27/*",
   "1\x27 OR \x271\x27=\x271",
   "x\x27 OR 1=1 OR \x27x\x27=\x27y"]

/-- Embedding of `_generate_adaptive_fuzzing` (fuzzer.py): a FAILED
attempt yields nothing; an interesting (HTTP 200) SQL-injection attempt
yields variant tasks at confidence 0.8 for payloads not yet attempted,
each added to the attempted-payload set.  Returns the new tasks and the
updated attempted set. -/
def generateAdaptiveFuzzing (attempted : List String) (executedTask : FuzzTask)
    (result : ExploitAttempt) : List FuzzTask × List String :=
  if result.status = ExploitStatus.failed then ([], attempted)
  else if result.responseStatusCode = 200 ∧ executedTask.vulnType = "sql_injection" then
    sqlAdditionalPayloads.foldl
      (fun acc p =>
        if p ∈ acc.2 then acc
        else
          (acc.1 ++ [{ executedTask with payload := p, confidence := (4 : ℚ) / 5 }],
            acc.2 ++ [p]))
      ([], attempted)
  else ([], attempted)

/-- C7 (code behaviour at the claim's scenario): whenever the response
yields no flag — in particular for an HTTP 200 response of a
SQL-injection task — the attempt is marked FAILED and
`_generate_adaptive_fuzzing` returns no tasks and leaves the
attempted-payload set unchanged, so the queue is never extended. -/
theorem adaptive_expansion_never_fires (attempted : List String) (task : FuzzTask)
    (respContent : List Char) (respCode : Nat) (fmt : List Char)
    (hNoFlag : extractFlag respContent fmt = none) :
    (runFuzzingTask task respContent respCode fmt).status = ExploitStatus.failed ∧
      generateAdaptiveFuzzing attempted task
          (runFuzzingTask task respContent respCode fmt) = ([], attempted) := by
  constructor
  · simp [runFuzzingTask, hNoFlag]
  · simp [generateAdaptiveFuzzing, runFuzzingTask, hNoFlag]

/-- Witness for `adaptive_expansion_never_fires`: an HTTP 200 response
with no flag on a SQL-injection task produces no adaptive tasks. -/
theorem adaptive_expansion_never_fires_witness :
    (runFuzzingTask
        ⟨"sql_injection", "/login.php", "form_sql_injection", "\x27 OR 1=1", 1, "POST", []⟩
        "Welcome to the admin dashboard".data 200 "flag\x7b*\x7d".data).status =
        ExploitStatus.failed ∧
      generateAdaptiveFuzzing []
          ⟨"sql_injection", "/login.php", "form_sql_injection", "\x27 OR 1=1", 1, "POST", []⟩
          (runFuzzingTask
            ⟨"sql_injection", "/login.php", "form_sql_injection", "\x27 OR 1=1", 1, "POST", []⟩
            "Welcome to the admin dashboard".data 200 "flag\x7b*\x7d".data) = ([], []) :=
  adaptive_expansion_never_fires []
    ⟨"sql_injection", "/login.php", "form_sql_injection", "\x27 OR 1=1", 1, "POST", []⟩
    "Welcome to the admin dashboard".data 200 "flag\x7b*\x7d".data (by decide)

/-- An identified vulnerability (`models/state.py`). -/
structure Vulnerability where
  vulnerabilityType : String
  location : String
  confidence : ℚ
  attackVectors : List String
  payloadSuggestions : List String
deriving DecidableEq, Repr

/-- A form field of a crawled page. -/
structure FormField where
  name : String
  value : String
deriving DecidableEq, Repr

/-- A form of a crawled page. -/
structure PageForm where
  action : String
  method : String
  fields : List FormField
deriving DecidableEq, Repr

/-- A crawled page, restricted to its forms. -/
structure CrawledPage where
  forms : List PageForm
deriving DecidableEq, Repr

/-- Embedding of `_determine_http_method` (threat_model.py): the method
of the first form whose action equals the location, defaulting to GET. -/
def determineHttpMethod (location : String) (pages : List CrawledPage) : String :=
  match pages.findSome? (fun pg =>
    pg.forms.findSome? (fun f => if f.action = location then some f.method else none)) with
  | some m => m
  | none => "GET"

/-- Embedding of `_extract_parameters` (threat_model.py): the named
fields of the first form whose action equals the location. -/
def extractParameters (location : String) (pages : List CrawledPage) :
    List (String × String) :=
  match pages.findSome? (fun pg =>
    pg.forms.findSome? (fun f =>
      if f.action = location then
        some (f.fields.filterMap (fun fld =>
          if fld.name = "" then none else some (fld.name, fld.value)))
      else none)) with
  | some ps => ps
  | none => []

/-- Tasks generated for one vulnerability: one per
attack-vector × payload-suggestion pair, at the vulnerability's
confidence. -/
def vulnTasks (pages : List CrawledPage) (v : Vulnerability) : List FuzzTask :=
  v.attackVectors.flatMap (fun av =>
    v.payloadSuggestions.map (fun p =>
      { vulnType := v.vulnerabilityType
        location := v.location
        attackVector := av
        payload := p
        confidence := v.confidence
        method := determineHttpMethod v.location pages
        params := extractParameters v.location pages }))

/-- Generic form-field SQL-injection tasks at confidence 0.5, one per
named field × plan payload. -/
def formTasks (sqlPayloads : List String) (pages : List CrawledPage) : List FuzzTask :=
  pages.flatMap (fun pg =>
    pg.forms.flatMap (fun f =>
      f.fields.flatMap (fun fld =>
        if fld.name = "" then []
        else
          sqlPayloads.map (fun p =>
            { vulnType := "sql_injection"
              location := f.action
              attackVector := "form_sql_injection"
              payload := p
              confidence := (1 : ℚ) / 2
              method := f.method
              params := [(fld.name, p)] }))))

/-- Stable descending insertion by confidence: the new task goes in front
of the first element whose confidence does not exceed it.  Python's
`list.sort(key=..., reverse=True)` is a stable descending sort, and a
stable sort's output is uniquely determined by the key order, so this is
an exact model of it. -/
def insertByConfDesc (t : FuzzTask) : List FuzzTask → List FuzzTask
  | [] => [t]
  | u :: rest =>
    if u.confidence ≤ t.confidence then t :: u :: rest
    else u :: insertByConfDesc t rest

/-- Stable sort of the queue by confidence, highest first. -/
def sortByConfDesc : List FuzzTask → List FuzzTask
  | [] => []
  | t :: rest => insertByConfDesc t (sortByConfDesc rest)

/-- The unsorted queue contents after `_populate_fuzzing_queue` appends:
the pre-existing queue, then vulnerability tasks, then generic form
tasks, in insertion order. -/
def populatedUnsorted (queue0 : List FuzzTask) (vulns : List Vulnerability)
    (sqlPayloads : List String) (pages : List CrawledPage) : List FuzzTask :=
  queue0 ++ vulns.flatMap (vulnTasks pages) ++ formTasks sqlPayloads pages

/-- Embedding of `_populate_fuzzing_queue` (threat_model.py): append all
generated tasks, then sort the whole queue by confidence descending. -/
def populateFuzzingQueue (queue0 : List FuzzTask) (vulns : List Vulnerability)
    (sqlPayloads : List String) (pages : List CrawledPage) : List FuzzTask :=
  sortByConfDesc (populatedUnsorted queue0 vulns sqlPayloads pages)

lemma mem_insertByConfDesc (x t : FuzzTask) (l : List FuzzTask) :
    x ∈ insertByConfDesc t l ↔ x = t ∨ x ∈ l := by
  induction l with
  | nil => simp [insertByConfDesc]
  | cons u rest ih =>
    rw [insertByConfDesc]
    by_cases hc : u.confidence ≤ t.confidence
    · rw [if_pos hc]
      simp
    · rw [if_neg hc]
      simp only [List.mem_cons, ih]
      tauto

lemma insertByConfDesc_pairwise (t : FuzzTask) (l : List FuzzTask)
    (h : l.Pairwise (fun a b => b.confidence ≤ a.confidence)) :
    (insertByConfDesc t l).Pairwise (fun a b => b.confidence ≤ a.confidence) := by
  induction l with
  | nil => simp [insertByConfDesc]
  | cons u rest ih =>
    rw [insertByConfDesc]
    rcases List.pairwise_cons.mp h with ⟨hu, hrest⟩
    by_cases hc : u.confidence ≤ t.confidence
    · rw [if_pos hc]
      refine List.pairwise_cons.mpr ⟨?_, h⟩
      intro x hx
      rcases List.mem_cons.mp hx with rfl | hx2
      · exact hc
      · exact le_trans (hu x hx2) hc
    · rw [if_neg hc]
      refine List.pairwise_cons.mpr ⟨?_, ih hrest⟩
      intro x hx
      rcases (mem_insertByConfDesc x t rest).mp hx with rfl | hx2
      · exact le_of_lt (lt_of_not_le hc)
      · exact hu x hx2

lemma sortByConfDesc_pairwise (l : List FuzzTask) :
    (sortByConfDesc l).Pairwise (fun a b => b.confidence ≤ a.confidence) := by
  induction l with
  | nil => simp [sortByConfDesc]
  | cons t rest ih => exact insertByConfDesc_pairwise t (sortByConfDesc rest) ih

lemma filter_insertByConfDesc (t : FuzzTask) (l : List FuzzTask) (c : ℚ) :
    (insertByConfDesc t l).filter (fun x => decide (x.confidence = c)) =
      if t.confidence = c then
        t :: l.filter (fun x => decide (x.confidence = c))
      else l.filter (fun x => decide (x.confidence = c)) := by
  induction l with
  | nil =>
    by_cases ht : t.confidence = c <;> simp [insertByConfDesc, List.filter, ht]
  | cons u rest ih =>
    rw [insertByConfDesc]
    by_cases hc : u.confidence ≤ t.confidence
    · rw [if_pos hc]
      by_cases ht : t.confidence = c <;> simp [List.filter, ht]
    · rw [if_neg hc]
      by_cases ht : t.confidence = c
      · have hu : ¬ u.confidence = c := by
          intro hu
          exact hc (by rw [hu, ← ht])
        simp [List.filter, ht, hu, ih]
      · by_cases hu : u.confidence = c <;> simp [List.filter, ht, hu, ih]

lemma filter_sortByConfDesc (l : List FuzzTask) (c : ℚ) :
    (sortByConfDesc l).filter (fun x => decide (x.confidence = c)) =
      l.filter (fun x => decide (x.confidence = c)) := by
  induction l with
  | nil => rfl
  | cons t rest ih =>
    rw [sortByConfDesc, filter_insertByConfDesc]
    by_cases ht : t.confidence = c <;> simp [List.filter, ht, ih]

/-- C5: immediately after `_populate_fuzzing_queue`, confidences are
non-increasing along the queue, and the tasks of any fixed confidence
appear in their insertion order (the sort is stable). -/
theorem populate_queue_sorted (queue0 : List FuzzTask) (vulns : List Vulnerability)
    (sqlPayloads : List String) (pages : List CrawledPage) :
    (∀ (i j : Nat) (hi : i < (populateFuzzingQueue queue0 vulns sqlPayloads pages).length)
      (hj : j < (populateFuzzingQueue queue0 vulns sqlPayloads pages).length), i ≤ j →
      ((populateFuzzingQueue queue0 vulns sqlPayloads pages).get ⟨j, hj⟩).confidence ≤
        ((populateFuzzingQueue queue0 vulns sqlPayloads pages).get ⟨i, hi⟩).confidence) ∧
    (∀ c : ℚ,
      (populateFuzzingQueue queue0 vulns sqlPayloads pages).filter
          (fun x => decide (x.confidence = c)) =
        (populatedUnsorted queue0 vulns sqlPayloads pages).filter
          (fun x => decide (x.confidence = c))) := by
  constructor
  · intro i j hi hj hij
    rcases Nat.lt_or_ge i j with hlt | hge
    · have hp := sortByConfDesc_pairwise (populatedUnsorted queue0 vulns sqlPayloads pages)
      exact List.pairwise_iff_get.mp hp ⟨i, hi⟩ ⟨j, hj⟩ hlt
    · have : i = j := le_antisymm hij hge
      subst this
      exact le_refl _
  · intro c
    exact filter_sortByConfDesc (populatedUnsorted queue0 vulns sqlPayloads pages) c

/-- Demo task of confidence 0 for the sortedness witness. -/
def demoTaskLow : FuzzTask :=
  ⟨"xss", "/a", "reflected", "payloadA", 0, "GET", []⟩

/-- Demo task of confidence 1 for the sortedness witness. -/
def demoTaskHigh : FuzzTask :=
  ⟨"sql_injection", "/b", "form_sql_injection", "payloadB", 1, "GET", []⟩

/-- Witness for `populate_queue_sorted`: a two-task queue out of order by
confidence is returned sorted descending. -/
theorem populate_queue_sorted_witness :
    ((populateFuzzingQueue [demoTaskLow, demoTaskHigh] [] [] []).get
        ⟨1, by decide⟩).confidence ≤
      ((populateFuzzingQueue [demoTaskLow, demoTaskHigh] [] [] []).get
        ⟨0, by decide⟩).confidence :=
  (populate_queue_sorted [demoTaskLow, demoTaskHigh] [] [] []).1 0 1
    (by decide) (by decide) (by decide)

/-- Overall workflow status (`models/state.py`). -/
inductive WorkflowStatus where
  | initializing
  | crawling
  | analyzing
  | modelingThreats
  | fuzzing
  | completed
  | failed
deriving DecidableEq, Repr

/-- The shared workflow state (`models/state.py`), restricted to the
fields the stage steps and continuation predicates read or write.
`exploitAttemptCount` is `len(submission.exploit_attempts)`. -/
structure WState where
  status : WorkflowStatus
  flagsFound : List (List Char)
  exploitAttemptCount : Nat
  fuzzingQueue : List FuzzTask
  attemptedPayloads : List String
  crawledPageCount : Nat
  crawlerProgress : ℚ
  vulnerabilityCount : Nat
  threatProgress : ℚ
  flagFormat : List Char
deriving DecidableEq, Repr

/-- Embedding of `_should_continue_crawling` (workflow.py). -/
def shouldContinueCrawling (s : WState) : String :=
  if s.crawledPageCount < 50 ∧ s.crawlerProgress < 1 then "continue" else "analyze"

/-- Embedding of `_should_continue_threat_modeling` (workflow.py). -/
def shouldContinueThreatModeling (s : WState) : String :=
  if s.vulnerabilityCount = 0 ∨ s.threatProgress < 1 then "continue" else "fuzz"

/-- Embedding of `_should_continue_fuzzing` (workflow.py), returning the
route and the (possibly status-mutated) state.  `max_attempts = 100`. -/
def shouldContinueFuzzing (s : WState) : String × WState :=
  if s.flagsFound ≠ [] then ("end", { s with status := WorkflowStatus.completed })
  else if s.exploitAttemptCount < 100 ∧ s.fuzzingQueue ≠ [] then ("continue", s)
  else if s.fuzzingQueue = [] then ("coordinate", s)
  else ("end", { s with status := WorkflowStatus.failed })

/-- Embedding of `_coordinator_decision` (workflow.py). -/
def coordinatorDecision (s : WState) : String × WState :=
  if s.flagsFound ≠ [] then ("end", { s with status := WorkflowStatus.completed })
  else if s.crawledPageCount < 10 then ("crawler", s)
  else if s.vulnerabilityCount < 3 then ("threat_model", s)
  else if 0 < s.vulnerabilityCount ∧ s.fuzzingQueue = [] then ("fuzzer", s)
  else ("end", { s with status := WorkflowStatus.failed })

/-- Embedding of `CTFState.add_exploit_attempt` (state.py): the attempt
log grows, and a truthy extracted flag is appended to `flags_found`. -/
def addExploitAttempt (s : WState) (att : ExploitAttempt) : WState :=
  { s with
    exploitAttemptCount := s.exploitAttemptCount + 1
    flagsFound := s.flagsFound ++
      (match att.flagFound with
       | some f => if f.isEmpty then [] else [f]
       | none => []) }

/-- Embedding of `FuzzerAgent.execute` (fuzzer.py): with an empty queue
the state is returned untouched; otherwise the head task is popped and
executed against the response the exploit routine obtained, the attempt
is recorded, and either the workflow is marked COMPLETED (flag found) or
the queue is extended with the adaptive tasks.  Stage-progress
bookkeeping (`log_progress`, `complete_agent`) touches only per-agent
fields not modelled here. -/
def fuzzerExecute (s : WState) (respContent : List Char) (respCode : Nat) : WState :=
  match s.fuzzingQueue with
  | [] => s
  | task :: rest =>
    let att := runFuzzingTask task respContent respCode s.flagFormat
    let s1 := addExploitAttempt { s with fuzzingQueue := rest } att
    if att.flagTruthy then { s1 with status := WorkflowStatus.completed }
    else
      { s1 with
        fuzzingQueue :=
          s1.fuzzingQueue ++ (generateAdaptiveFuzzing s1.attemptedPayloads task att).1
        attemptedPayloads := (generateAdaptiveFuzzing s1.attemptedPayloads task att).2 }

/-- Workflow graph nodes (`_build_graph`, workflow.py); `done` is END. -/
inductive Node where
  | crawler
  | summarizer
  | threatModel
  | fuzzer
  | coordinator
  | done
deriving DecidableEq, Repr

/-- Conditional-edge mapping of the crawler node. -/
def crawlRoute (r : String) : Node :=
  if r = "continue" then Node.crawler else Node.summarizer

/-- Conditional-edge mapping of the threat-model node. -/
def threatRoute (r : String) : Node :=
  if r = "continue" then Node.threatModel else Node.fuzzer

/-- Conditional-edge mapping of the fuzzer node. -/
def fuzzRoute (r : String) : Node :=
  if r = "continue" then Node.fuzzer
  else if r = "coordinate" then Node.coordinator
  else Node.done

/-- Conditional-edge mapping of the coordinator node. -/
def coordRoute (r : String) : Node :=
  if r = "crawler" then Node.crawler
  else if r = "threat_model" then Node.threatModel
  else if r = "fuzzer" then Node.fuzzer
  else Node.done

/-- Effects the crawler, summarizer and threat-model executors may have
on the shared state: anything that leaves `flags_found` and
`workflow_status` alone (those executors never write either field). -/
def PreservesFlagsStatus (e : WState → WState) : Prop :=
  ∀ s, (e s).flagsFound = s.flagsFound ∧ (e s).status = s.status

/-- One stage step of the workflow: the node wrapper sets the stage
status, the executor runs, and the node's conditional edge routes to the
next node (mutating the status in the end branches).  The fuzzer step is
parameterised by the HTTP response of the dispatched exploit;
`fuzzErr` is its exception path, where the executor leaves the state
untouched beyond the wrapper's status write. -/
inductive WStep : Node × WState → Node × WState → Prop where
  | crawl (s : WState) (e : WState → WState) (he : PreservesFlagsStatus e) :
      WStep (Node.crawler, s)
        (crawlRoute (shouldContinueCrawling (e { s with status := WorkflowStatus.crawling })),
          e { s with status := WorkflowStatus.crawling })
  | summarize (s : WState) (e : WState → WState) (he : PreservesFlagsStatus e) :
      WStep (Node.summarizer, s)
        (Node.threatModel, e { s with status := WorkflowStatus.analyzing })
  | threat (s : WState) (e : WState → WState) (he : PreservesFlagsStatus e) :
      WStep (Node.threatModel, s)
        (threatRoute
            (shouldContinueThreatModeling
              (e { s with status := WorkflowStatus.modelingThreats })),
          e { s with status := WorkflowStatus.modelingThreats })
  | fuzz (s : WState) (respContent : List Char) (respCode : Nat) :
      WStep (Node.fuzzer, s)
        (fuzzRoute
            (shouldContinueFuzzing
              (fuzzerExecute { s with status := WorkflowStatus.fuzzing } respContent respCode)).1,
          (shouldContinueFuzzing
            (fuzzerExecute { s with status := WorkflowStatus.fuzzing } respContent respCode)).2)
  | fuzzErr (s : WState) :
      WStep (Node.fuzzer, s)
        (fuzzRoute (shouldContinueFuzzing { s with status := WorkflowStatus.fuzzing }).1,
          (shouldContinueFuzzing { s with status := WorkflowStatus.fuzzing }).2)
  | coordinate (s : WState) :
      WStep (Node.coordinator, s)
        (coordRoute (coordinatorDecision s).1, (coordinatorDecision s).2)

/-- A node/state pair reachable by the workflow's stage steps from a
fresh state (status INITIALIZING, no flags, entry point crawler). -/
def WReachable (p : Node × WState) : Prop :=
  ∃ s0 : WState, s0.status = WorkflowStatus.initializing ∧ s0.flagsFound = [] ∧
    Relation.ReflTransGen WStep (Node.crawler, s0) p

/-- Inductive invariant: a non-empty flag list forces COMPLETED status,
and away from END the flag list is still empty. -/
def WInv (p : Node × WState) : Prop :=
  (p.2.flagsFound ≠ [] → p.2.status = WorkflowStatus.completed) ∧
    (p.1 ≠ Node.done → p.2.flagsFound = [])

lemma shouldContinueFuzzing_inv (s1 : WState) :
    ((shouldContinueFuzzing s1).2.flagsFound ≠ [] →
      (shouldContinueFuzzing s1).2.status = WorkflowStatus.completed) ∧
    (fuzzRoute (shouldContinueFuzzing s1).1 ≠ Node.done →
      (shouldContinueFuzzing s1).2.flagsFound = []) := by
  by_cases hf : s1.flagsFound = []
  · rw [shouldContinueFuzzing, if_neg (by simpa using hf)]
    by_cases h2 : s1.exploitAttemptCount < 100 ∧ s1.fuzzingQueue ≠ []
    · rw [if_pos h2]
      exact ⟨fun h => absurd hf h, fun _ => hf⟩
    · rw [if_neg h2]
      by_cases h3 : s1.fuzzingQueue = []
      · rw [if_pos h3]
        exact ⟨fun h => absurd hf h, fun _ => hf⟩
      · rw [if_neg h3]
        exact ⟨fun h => absurd hf h, fun _ => hf⟩
  · rw [shouldContinueFuzzing, if_pos (by simpa using hf)]
    refine ⟨fun _ => rfl, fun hroute => ?_⟩
    exact absurd (by simp [fuzzRoute]) hroute

lemma coordinatorDecision_inv (s : WState) (hs : s.flagsFound = []) :
    ((coordinatorDecision s).2.flagsFound ≠ [] →
      (coordinatorDecision s).2.status = WorkflowStatus.completed) ∧
    (coordRoute (coordinatorDecision s).1 ≠ Node.done →
      (coordinatorDecision s).2.flagsFound = []) := by
  rw [coordinatorDecision, if_neg (by simpa using hs)]
  by_cases h2 : s.crawledPageCount < 10
  · rw [if_pos h2]; exact ⟨fun h => absurd hs h, fun _ => hs⟩
  · rw [if_neg h2]
    by_cases h3 : s.vulnerabilityCount < 3
    · rw [if_pos h3]; exact ⟨fun h => absurd hs h, fun _ => hs⟩
    · rw [if_neg h3]
      by_cases h4 : 0 < s.vulnerabilityCount ∧ s.fuzzingQueue = []
      · rw [if_pos h4]; exact ⟨fun h => absurd hs h, fun _ => hs⟩
      · rw [if_neg h4]; exact ⟨fun h => absurd hs h, fun _ => hs⟩

lemma wstep_preserves_inv (p q : Node × WState) (hstep : WStep p q) (hp : WInv p) :
    WInv q := by
  obtain ⟨hp1, hp2⟩ := hp
  cases hstep with
  | crawl s e he =>
    have hflags : (e { s with status := WorkflowStatus.crawling }).flagsFound = [] := by
      rw [(he _).1]
      exact hp2 (by simp)
    exact ⟨fun h => absurd hflags h, fun _ => hflags⟩
  | summarize s e he =>
    have hflags : (e { s with status := WorkflowStatus.analyzing }).flagsFound = [] := by
      rw [(he _).1]
      exact hp2 (by simp)
    exact ⟨fun h => absurd hflags h, fun _ => hflags⟩
  | threat s e he =>
    have hflags : (e { s with status := WorkflowStatus.modelingThreats }).flagsFound = [] := by
      rw [(he _).1]
      exact hp2 (by simp)
    exact ⟨fun h => absurd hflags h, fun _ => hflags⟩
  | fuzz s respContent respCode =>
    exact shouldContinueFuzzing_inv _
  | fuzzErr s =>
    exact shouldContinueFuzzing_inv _
  | coordinate s =>
    exact coordinatorDecision_inv s (hp2 (by simp))

/-- C8: in every node/state pair reachable by the workflow's stage steps,
a non-empty `flags_found` list implies the overall status is COMPLETED. -/
theorem workflow_flags_imply_completed (n : Node) (s : WState)
    (h : WReachable (n, s)) (hf : s.flagsFound ≠ []) :
    s.status = WorkflowStatus.completed := by
  obtain ⟨s0, hs0status, hs0flags, hreach⟩ := h
  have key : ∀ q, Relation.ReflTransGen WStep (Node.crawler, s0) q → WInv q := by
    intro q hq
    induction hq with
    | refl => exact ⟨fun hne => absurd hs0flags hne, fun _ => hs0flags⟩
    | tail hsteps hstep ih => exact wstep_preserves_inv _ _ hstep ih
  exact (key (n, s) hreach).1 hf

/-- Queue entry used by the workflow witness run. -/
def wsTask : FuzzTask :=
  ⟨"sql_injection", "/login", "form_sql_injection", "\x27 OR 1=1", 1, "POST", []⟩

/-- Fresh workflow state for the witness run: crawl and threat stages
already saturated, one queued task. -/
def wsInit : WState :=
  ⟨WorkflowStatus.initializing, [], 0, [wsTask], [], 50, 1, 1, 1, "flag\x7b*\x7d".data⟩

/-- The witness state after the crawler stage step. -/
def ws1 : WState := { wsInit with status := WorkflowStatus.crawling }

/-- The witness state after the summarizer stage step. -/
def ws2 : WState := { ws1 with status := WorkflowStatus.analyzing }

/-- The witness state after the threat-model stage step. -/
def ws3 : WState := { ws2 with status := WorkflowStatus.modelingThreats }

/-- The witness state after the fuzzer finds `flag\x7bwin\x7d`. -/
def wsFinal : WState :=
  ⟨WorkflowStatus.completed, ["flag\x7bwin\x7d".data], 1, [], [], 50, 1, 1, 1,
    "flag\x7b*\x7d".data⟩

/-- Witness for `workflow_flags_imply_completed`: a four-step run that
crawls, summarizes, threat-models and then finds a flag while fuzzing
ends with status COMPLETED. -/
theorem workflow_flags_imply_completed_witness :
    wsFinal.status = WorkflowStatus.completed := by
  have h1 : WStep (Node.crawler, wsInit) (Node.summarizer, ws1) :=
    WStep.crawl wsInit id (fun s => ⟨rfl, rfl⟩)
  have h2 : WStep (Node.summarizer, ws1) (Node.threatModel, ws2) :=
    WStep.summarize ws1 id (fun s => ⟨rfl, rfl⟩)
  have h3 : WStep (Node.threatModel, ws2) (Node.fuzzer, ws3) :=
    WStep.threat ws2 id (fun s => ⟨rfl, rfl⟩)
  have h4 : WStep (Node.fuzzer, ws3) (Node.done, wsFinal) :=
    WStep.fuzz ws3 "flag\x7bwin\x7d".data 200
  exact workflow_flags_imply_completed Node.done wsFinal
    ⟨wsInit, rfl, rfl,
      Relation.ReflTransGen.tail
        (Relation.ReflTransGen.tail
          (Relation.ReflTransGen.tail
            (Relation.ReflTransGen.tail Relation.ReflTransGen.refl h1) h2) h3) h4⟩
    (by decide)

/-- State with attempts exhausted, empty queue and no flag, on which the
claim and the code disagree about the fuzzing route. -/
def cexFuzzState : WState :=
  ⟨WorkflowStatus.fuzzing, [], 100, [], [], 0, 0, 0, 0, []⟩

/-- C3 counterexample: with attempts exhausted, an empty queue and no
flag, `_should_continue_fuzzing` routes to "coordinate", not to
End(Failed) as the claim states. -/
theorem fuzz_decision_claim_counterexample :
    cexFuzzState.flagsFound = [] ∧ 100 ≤ cexFuzzState.exploitAttemptCount ∧
      cexFuzzState.fuzzingQueue = [] ∧
      (shouldContinueFuzzing cexFuzzState).1 = "coordinate" ∧
      (shouldContinueFuzzing cexFuzzState).1 ≠ "end" := by
  decide

/-- C3 (amended): after a fuzzer step the continuation predicate yields
End(Completed) whenever a flag has been recorded; otherwise it continues
while attempts are below the 100-attempt ceiling and the queue is
non-empty; an empty queue (without a flag) always routes to Coordinate,
whatever the attempt count; and End(Failed) occurs exactly when attempts
are exhausted with a non-empty queue and no flag. -/
theorem fuzz_decision_amended (s : WState) :
    (s.flagsFound ≠ [] →
      shouldContinueFuzzing s = ("end", { s with status := WorkflowStatus.completed })) ∧
    (s.flagsFound = [] → s.exploitAttemptCount < 100 → s.fuzzingQueue ≠ [] →
      shouldContinueFuzzing s = ("continue", s)) ∧
    (s.flagsFound = [] → s.fuzzingQueue = [] →
      shouldContinueFuzzing s = ("coordinate", s)) ∧
    (s.flagsFound = [] → 100 ≤ s.exploitAttemptCount → s.fuzzingQueue ≠ [] →
      shouldContinueFuzzing s = ("end", { s with status := WorkflowStatus.failed })) := by
  refine ⟨?_, ?_, ?_, ?_⟩
  · intro hf
    rw [shouldContinueFuzzing, if_pos hf]
  · intro hf ha hq
    rw [shouldContinueFuzzing, if_neg (by simp [hf]), if_pos ⟨ha, hq⟩]
  · intro hf hq
    rw [shouldContinueFuzzing, if_neg (by simp [hf]),
      if_neg (by simp [hq]), if_pos hq]
  · intro hf ha hq
    rw [shouldContinueFuzzing, if_neg (by simp [hf]),
      if_neg (by simp [Nat.not_lt.mpr ha]), if_neg hq]

/-- Witness for `fuzz_decision_amended`: the exhausted-attempts,
empty-queue state routes to Coordinate with the state unchanged. -/
theorem fuzz_decision_amended_witness :
    shouldContinueFuzzing cexFuzzState = ("coordinate", cexFuzzState) :=
  (fuzz_decision_amended cexFuzzState).2.2.1 (by decide) (by decide)

/-- Substring test on character lists (Python's `in` on strings). -/
def containsSub (pat : List Char) : List Char → Bool
  | [] => pat.isPrefixOf []
  | c :: rest => pat.isPrefixOf (c :: rest) || containsSub pat rest

/-- Embedding of `should_continue` (main.py): route to the tools node
when the last message carries tool calls; otherwise check the
solved markers in the upper-cased content, then the 15-message ceiling,
then fall through — every non-tool branch returns `__end__`. -/
def shouldContinueAgent (msgs : List Msg) (h : msgs ≠ []) : String :=
  let last := msgs.getLast h
  if last.hasToolCalls then "tools"
  else if !last.content.isEmpty &&
      (containsSub "CHALLENGE SOLVED".data (last.content.data.map Char.toUpper) ||
       containsSub "FLAG\x7b".data (last.content.data.map Char.toUpper) ||
       containsSub "CTF\x7b".data (last.content.data.map Char.toUpper)) then "__end__"
  else if 15 < msgs.length then "__end__"
  else "__end__"

/-- The simple decision function of claim C10: `tools` iff the last
message carries tool calls, `__end__` otherwise. -/
def simpleShouldContinue (msgs : List Msg) (h : msgs ≠ []) : String :=
  if (msgs.getLast h).hasToolCalls then "tools" else "__end__"

/-- C10: the agent-loop continuation decision equals the simple
tool-calls test — the solved-marker check and the 15-message ceiling
never change the returned branch. -/
theorem should_continue_refines (msgs : List Msg) (h : msgs ≠ []) :
    shouldContinueAgent msgs h = simpleShouldContinue msgs h := by
  rw [shouldContinueAgent, simpleShouldContinue]
  by_cases htc : (msgs.getLast h).hasToolCalls = true
  · simp [htc]
  · simp only [Bool.not_eq_true] at htc
    simp [htc, ite_self]

/-- Witness for `should_continue_refines` at a singleton history whose
assistant message carries tool calls. -/
theorem should_continue_refines_witness :
    shouldContinueAgent [Msg.ai true "calling a tool"] (by decide) =
      simpleShouldContinue [Msg.ai true "calling a tool"] (by decide) :=
  should_continue_refines [Msg.ai true "calling a tool"] (by decide)
